/-
Verification of the client-side API governance layer of the OSMO_DTF
front-end: the singleton API rate limiter (sliding window, cooldown,
request deduplication) and the token metadata cache (TTL cache, batch
coalescing).  The Lean definitions below are a shallow embedding of the
TypeScript sources; timestamps are modelled as integers (milliseconds),
promises as their eventual values, and the single-threaded event loop as
an explicit small-step machine whose atomic steps are the synchronous
stretches of the source code between suspension points.
-/
import Mathlib

namespace OSMO

/-! ## Rate limiter (api-rate-limiter.ts)

State of `APIRateLimiter` plus the bookkeeping needed to observe
behaviour: `pending` is the `pendingRequests` map (promise modelled by an
identifier, the index of its network call in `netCalls`), `history` is
`requestHistory`, `cooldownUntil` replaces the `isCooldown` flag together
with its timer (the flag is set by `recordRequest` and cleared by a timer
`cooldownMs` later, the timer being re-armed on each record, so the flag
is on at time `t` exactly when `t < cooldownUntil`).  `waiting` holds the
callers suspended in the rate-limit backoff together with their wake-up
times, `netCalls` the keys of the network calls issued so far, `results`
the promise identifier each caller ended up awaiting, and `lastTime` the
current clock (events may not go back in time).  The environment flag
`NEXT_PUBLIC_COINGECKO_API_KEY` is the boolean parameter `hk`. -/

/-- `Map.get`, on the insertion-ordered association-list model of a JS
`Map`. -/
def mapGet {α : Type} (l : List (String × α)) (k : String) : Option α :=
  (l.find? (fun p => p.1 == k)).map (fun p => p.2)

/-- `Map.set`: overwrite in place when the key is present, append
otherwise. -/
def mapSet {α : Type} (l : List (String × α)) (k : String) (v : α) :
    List (String × α) :=
  if l.any (fun p => p.1 == k) then
    l.map (fun p => if p.1 == k then (k, v) else p)
  else l ++ [(k, v)]

/-- `Map.delete`. -/
def mapDelete {α : Type} (l : List (String × α)) (k : String) :
    List (String × α) :=
  l.filter (fun p => p.1 != k)

def windowMs : Int := 60 * 1000

def getMaxRequests (hk : Bool) : Nat := if hk then 100 else 30

def getCooldownMs (hk : Bool) : Int := if hk then 1000 else 2000

/-- Signature of a request: `method:url:body` with the source defaults
(method defaults to GET, absent body serializes to the empty string). -/
def generateRequestKey (url : String) (method : Option String)
    (serializedBody : Option String) : String :=
  method.getD "GET" ++ ":" ++ url ++ ":" ++ serializedBody.getD ""

structure RLState where
  pending : List (String × Nat)
  history : List Int
  cooldownUntil : Int
  waiting : List (Nat × String × Int)
  netCalls : List String
  results : List (Nat × Nat)
  lastTime : Int
deriving DecidableEq

def rlInit : RLState := ⟨[], [], 0, [], [], [], 0⟩

/-- `this.requestHistory.filter(timestamp => timestamp > cutoff)` with
`cutoff = Date.now() - this.config.windowMs`. -/
def cleanupRequestHistory (h : List Int) (now : Int) : List Int :=
  h.filter (fun ts => decide (ts > now - windowMs))

/-- Number of recorded timestamps newer than `now - windowMs`. -/
def windowCount (h : List Int) (now : Int) : Nat :=
  h.countP (fun ts => decide (ts > now - windowMs))

/-- `canMakeRequest`: false during cooldown (checked first, without
pruning), otherwise prune the history and compare against the cap. -/
def canMakeRequest (hk : Bool) (s : RLState) (now : Int) : Bool :=
  if now < s.cooldownUntil then false
  else decide ((cleanupRequestHistory s.history now).length < getMaxRequests hk)

/-- Events of the event-loop machine: a caller invoking `makeRequest`
with a request signature at a time, a suspended caller resuming from the
backoff wait, and a request promise settling (the `finally` cleanup). -/
inductive RLEvent where
  | arrive (cid : Nat) (key : String) (t : Int)
  | wake (cid : Nat)
  | settle (key : String)
deriving DecidableEq

/-- One synchronous stretch of `makeRequest`.  An arriving caller first
consults the pending map (sharing the stored promise on a hit, with no
admission check), then the rate limit: if admissible it synchronously
records a timestamp, arms the cooldown, issues the network call and
registers the pending entry (no suspension between check and register);
if not admissible it suspends until `t + cooldownMs`.  A waking caller
proceeds unconditionally: it records, issues its network call and
registers its pending entry without re-checking either map or window.
`settle` removes the pending entry unconditionally. -/
def rlStep (hk : Bool) (s : RLState) (e : RLEvent) : Option RLState :=
  match e with
  | .arrive cid key t =>
    if t < s.lastTime then none else
    match mapGet s.pending key with
    | some pid => some { s with lastTime := t, results := s.results ++ [(cid, pid)] }
    | none =>
      if t < s.cooldownUntil then
        some { s with lastTime := t,
                      waiting := s.waiting ++ [(cid, key, t + getCooldownMs hk)] }
      else
        let h := cleanupRequestHistory s.history t
        if h.length < getMaxRequests hk then
          some { s with lastTime := t, history := h ++ [t],
                        cooldownUntil := t + getCooldownMs hk,
                        netCalls := s.netCalls ++ [key],
                        pending := mapSet s.pending key s.netCalls.length,
                        results := s.results ++ [(cid, s.netCalls.length)] }
        else
          some { s with lastTime := t, history := h,
                        waiting := s.waiting ++ [(cid, key, t + getCooldownMs hk)] }
  | .wake cid =>
    match s.waiting.find? (fun w => w.1 == cid) with
    | none => none
    | some (_, key, u) =>
      if u < s.lastTime then none else
      some { s with lastTime := u,
                    waiting := s.waiting.filter (fun w => w.1 != cid),
                    history := s.history ++ [u],
                    cooldownUntil := u + getCooldownMs hk,
                    netCalls := s.netCalls ++ [key],
                    pending := mapSet s.pending key s.netCalls.length,
                    results := s.results ++ [(cid, s.netCalls.length)] }
  | .settle key => some { s with pending := mapDelete s.pending key }

def runRL (hk : Bool) (s : RLState) (es : List RLEvent) : Option RLState :=
  es.foldlM (rlStep hk) s

/-- A trace consisting only of admitted (or deduplicated) requests: every
arrival either hits the pending map or passes `canMakeRequest` at its
time, and no caller ever resumes from the backoff path. -/
def admittedRun (hk : Bool) : RLState → List RLEvent → Bool
  | _, [] => true
  | s, e :: es =>
    (match e with
     | .arrive _ key t =>
       decide (s.lastTime ≤ t) &&
         ((mapGet s.pending key).isSome || canMakeRequest hk s t)
     | .wake _ => false
     | .settle _ => true)
    && (match rlStep hk s e with
        | some s₂ => admittedRun hk s₂ es
        | none => false)

/-! ## Token metadata cache (token-metadata-cache.ts)

`TokenMetadata` mirrors the exported interface (numeric provider fields
are opaque payload here, modelled as integers).  The cache maps
lower-cased addresses to entries carrying the payload, the write time and
an absolute expiry; `pendingBatchRequests` maps a batch signature to the
uncached address list, the eventual value of the shared in-flight promise
and the start time.  A call to `getBatchTokenMetadata` is split at its
suspension point into `getBatchPhase1` (everything up to and including
storing the pending batch — one synchronous stretch) and
`getBatchPhase2` (the continuation after the fetch resolves: cache
population, merge, pending cleanup).  `getBatchPhase1` also returns the
address array as left behind in the caller, since `generateBatchKey`
sorts it in place.  The provider behind `/api/tokens/batch-metadata` is
an oracle `api`; a thrown error is `Except.error`. -/

structure TokenMetadata where
  address : String
  symbol : String
  name : String
  decimals : Nat
  logoUrl : Option String
  isVerified : Bool
  isTestnet : Option Bool
  coingeckoId : Option String
  marketCap : Option Int
  price : Option Int
  priceChange24h : Option Int
  volume24h : Option Int
  descr : Option String
deriving DecidableEq

structure CacheEntry where
  data : TokenMetadata
  timestamp : Int
  expiresAt : Int
deriving DecidableEq

structure BatchRequest where
  addresses : List String
  promiseVal : List TokenMetadata
  timestamp : Int
deriving DecidableEq

structure CacheState where
  cache : List (String × CacheEntry)
  pendingBatchRequests : List (String × BatchRequest)
deriving DecidableEq

def cacheInit : CacheState := ⟨[], []⟩

def CACHE_DURATION : Int := 10 * 60 * 1000

def BATCH_TIMEOUT : Int := 5 * 1000

/-- `Date.now() < entry.expiresAt`. -/
def isCacheValid (now : Int) (e : CacheEntry) : Bool :=
  decide (now < e.expiresAt)

/-- `toLowerCase()`, modelled characterwise over the underlying
character list. -/
def jsToLower (s : String) : String :=
  String.mk (s.data.map Char.toLower)

/-- Lexicographic comparison of character lists by code point — the
default comparator of the `sort()` built-in (strings compared as
sequences of code units). -/
def charListLe : List Char → List Char → Bool
  | [], _ => true
  | _ :: _, [] => false
  | a :: as, b :: bs =>
    if a < b then true else if b < a then false else charListLe as bs

def jsLe (a b : String) : Bool := charListLe a.data b.data

/-- The in-place `addresses.sort()` of the source, modelled by a stable
sort under the default string comparator. -/
def jsSort (l : List String) : List String :=
  List.insertionSort (fun a b => jsLe a b = true) l

/-- `addresses.sort().join(',')`. -/
def generateBatchKey (addresses : List String) : String :=
  String.intercalate "," (jsSort addresses)

/-- The `cached && isCacheValid(cached)` lookup idiom (`cached.data` on a
valid hit, miss otherwise). -/
def getCachedValid (st : CacheState) (now : Int) (key : String) :
    Option TokenMetadata :=
  match mapGet st.cache key with
  | some e => if isCacheValid now e then some e.data else none
  | none => none

/-- The partition loop of `getBatchTokenMetadata`: valid entries are
pushed onto `cachedResults`, the rest onto `uncachedAddresses`, in
iteration order. -/
def partitionCached (st : CacheState) (now : Int) :
    List String → List TokenMetadata × List String
  | [] => ([], [])
  | a :: rest =>
    let pr := partitionCached st now rest
    match getCachedValid st now (jsToLower a) with
    | some d => (d :: pr.1, pr.2)
    | none => (pr.1, a :: pr.2)

/-- Closed form of the cached-results side of the partition. -/
def validHits (st : CacheState) (now : Int) (addrs : List String) :
    List TokenMetadata :=
  addrs.filterMap (fun a => getCachedValid st now (jsToLower a))

/-- Closed form of the uncached side of the partition. -/
def uncachedOf (st : CacheState) (now : Int) (addrs : List String) :
    List String :=
  addrs.filter (fun a => (getCachedValid st now (jsToLower a)).isNone)

/-- `fetchBatchFromAPI`: any thrown error is caught at this boundary and
the batch resolves with the empty list. -/
def fetchBatchFromAPI (api : List String → Except Unit (List TokenMetadata))
    (addrs : List String) : List TokenMetadata :=
  match api addrs with
  | .ok ts => ts
  | .error _ => []

/-- `cacheToken`: write under the lower-cased address with a fresh TTL. -/
def cacheToken (st : CacheState) (now : Int) (tok : TokenMetadata) :
    CacheState :=
  let e : CacheEntry := ⟨tok, now, now + CACHE_DURATION⟩
  { st with cache := mapSet st.cache (jsToLower tok.address) e }

/-- A fresh-enough pending batch for a key, per the join condition
`(now - pendingBatch.timestamp) < BATCH_TIMEOUT`. -/
def freshPending (st : CacheState) (now : Int) (key : String) :
    Option BatchRequest :=
  match mapGet st.pendingBatchRequests key with
  | some pb => if now - pb.timestamp < BATCH_TIMEOUT then some pb else none
  | none => none

inductive BatchOutcome where
  | done (result : List TokenMetadata)
  | inflight (key : String) (cachedResults : List TokenMetadata)
      (apiResults : List TokenMetadata)
deriving DecidableEq

/-- First synchronous stretch of `getBatchTokenMetadata`: empty-input
short circuit, in-place sort while computing the batch key, pending-batch
join, partition, all-cached fast path, and otherwise starting the fetch
and registering the pending batch under the key.  Returns the outcome,
the mutated address array, and the new state. -/
def getBatchPhase1 (st : CacheState) (now : Int) (addresses : List String)
    (api : List String → Except Unit (List TokenMetadata)) :
    BatchOutcome × List String × CacheState :=
  if addresses.isEmpty then (.done [], addresses, st)
  else
    let sorted := jsSort addresses
    let batchKey := String.intercalate "," sorted
    match freshPending st now batchKey with
    | some pb => (.done pb.promiseVal, sorted, st)
    | none =>
      let pc := partitionCached st now sorted
      if pc.2.isEmpty then (.done pc.1, sorted, st)
      else
        let apiResults := fetchBatchFromAPI api pc.2
        (.inflight batchKey pc.1 apiResults, sorted,
          { st with pendingBatchRequests :=
              mapSet st.pendingBatchRequests batchKey ⟨pc.2, apiResults, now⟩ })

/-- Continuation of `getBatchTokenMetadata` after the fetch resolves:
cache every returned record, merge cached and fetched results, and drop
the pending entry (the `finally` clause). -/
def getBatchPhase2 (st : CacheState) (now : Int) (key : String)
    (cachedResults apiResults : List TokenMetadata) :
    List TokenMetadata × CacheState :=
  let st2 := apiResults.foldl (fun s tok => cacheToken s now tok) st
  (cachedResults ++ apiResults,
    { st2 with pendingBatchRequests := mapDelete st2.pendingBatchRequests key })

/-- `getBatchTokenMetadata` run to completion with no interleaving
(results, mutated input array, final state). -/
def getBatchTokenMetadata (st : CacheState) (now : Int)
    (addresses : List String)
    (api : List String → Except Unit (List TokenMetadata)) :
    List TokenMetadata × List String × CacheState :=
  match getBatchPhase1 st now addresses api with
  | (.done r, sorted, st2) => (r, sorted, st2)
  | (.inflight key cs as, sorted, st2) =>
    let out := getBatchPhase2 st2 now key cs as
    (out.1, sorted, out.2)

/-- `getTokenMetadata`: direct cache probe, then delegation to the batch
form on `[address]`, returning `result[0]` when the result is non-empty
and null otherwise. -/
def getTokenMetadata (st : CacheState) (now : Int) (address : String)
    (api : List String → Except Unit (List TokenMetadata)) :
    Option TokenMetadata × CacheState :=
  match getCachedValid st now (jsToLower address) with
  | some d => (some d, st)
  | none =>
    let out := getBatchTokenMetadata st now [address] api
    (match out.1 with
     | [] => none
     | r :: _ => some r, out.2.2)

/-- `searchTokens`: the rate-limited search call (an oracle of the query
and limit); on success every returned record is cached with a fresh TTL
and the response is returned, any error resolves to the empty list. -/
def searchTokens (st : CacheState) (now : Int) (query : String) (limit : Nat)
    (api : String → Nat → Except Unit (List TokenMetadata)) :
    List TokenMetadata × CacheState :=
  match api query limit with
  | .error _ => ([], st)
  | .ok ts => (ts, ts.foldl (fun s tok => cacheToken s now tok) st)

/-! ## Concrete sample data

Tokens, provider oracles, traces and states used by the concrete
counterexamples and witnesses below. -/

def metaX : TokenMetadata :=
  ⟨"x", "X", "X token", 6, none, true, none, none, none, none, none, none, none⟩

def metaY : TokenMetadata :=
  ⟨"y", "Y", "Y token", 6, none, true, none, none, none, none, none, none, none⟩

def metaZ : TokenMetadata :=
  ⟨"z", "Z", "Z token", 6, none, true, none, none, none, none, none, none, none⟩

/-- Provider that throws on every batch. -/
def apiFail : List String → Except Unit (List TokenMetadata) := fun _ => .error ()

/-- Provider that answers the batch `["y"]` with `metaY` and throws on
anything else. -/
def apiYOnly : List String → Except Unit (List TokenMetadata) :=
  fun l => if l = ["y"] then .ok [metaY] else .error ()

/-- Provider that answers every batch with the single record `metaZ`
(an address different from any requested one). -/
def apiZAny : List String → Except Unit (List TokenMetadata) := fun _ => .ok [metaZ]

/-- Cache holding `metaX` (address `x`), written at time 0. -/
def stX : CacheState := cacheToken cacheInit 0 metaX

/-- State left by a first caller that requested `[x, y]` at time 0
against `stX`: `x` was served from cache, the batch for the uncached
`[y]` is in flight, registered under the signature `x,y` with eventual
value `[metaY]`. -/
def c3State : CacheState := (getBatchPhase1 stX 0 ["x", "y"] apiYOnly).2.2

/-- Same situation reached from the input `[y, x]` (mixed order). -/
def c4State : CacheState := (getBatchPhase1 stX 0 ["y", "x"] apiYOnly).2.2

/-- 31 callers on the free tier: one admitted at time 0, thirty arriving
at time 1 during the cooldown (distinct signatures), all thirty then
resuming from the backoff at time 2001 and recording unconditionally. -/
def c1trace : List RLEvent :=
  RLEvent.arrive 0 "a" 0 ::
    ((List.range 30).map (fun i => RLEvent.arrive (i + 1) (Nat.repr (i + 1)) 1)
      ++ (List.range 30).map (fun i => RLEvent.wake (i + 1)))

/-- Two callers with the identical signature `k` arriving during the
cooldown armed by an unrelated admitted request: both miss the pending
map (neither has registered yet), both suspend, and both issue a network
call on waking. -/
def c2trace : List RLEvent :=
  [.arrive 0 "a" 0, .arrive 1 "k" 1, .arrive 2 "k" 1, .wake 1, .wake 2]

/-- An admitted-only trace used to witness the window invariant. -/
def c1wTrace : List RLEvent :=
  [.arrive 0 "a" 0, .settle "a", .arrive 1 "b" 2000]

/-- The state `c1wTrace` runs to. -/
def c1wState : RLState :=
  ⟨[("b", 1)], [0, 2000], 4000, [], ["a", "b"], [(0, 0), (1, 1)], 2000⟩

/-- Search oracle that succeeds with two records. -/
def sApiOk : String → Nat → Except Unit (List TokenMetadata) :=
  fun _ _ => .ok [metaX, metaZ]

/-- Search oracle that throws. -/
def sApiErr : String → Nat → Except Unit (List TokenMetadata) :=
  fun _ _ => .error ()

/-- A state with one caller suspended in the backoff (wake-up at 100). -/
def wakeState0 : RLState := ⟨[], [], 0, [(7, "w", 100)], [], [], 0⟩

/-- The state `wakeState0` steps to on that wake. -/
def wakeState1 : RLState := ⟨[("w", 0)], [100], 2100, [], ["w"], [(7, 0)], 100⟩

/-- A state with a pending request under `k` and a far-off cooldown. -/
def sPend : RLState := ⟨[("k", 5)], [], 9999, [], [], [], 0⟩

/-- The state an admitted arrival for `k` at time 0 produces from
`rlInit`. -/
def s1c : RLState := ⟨[("k", 0)], [0], 2000, [], ["k"], [(1, 0)], 0⟩

end OSMO

namespace OSMO

/-! ## Helper lemmas -/

theorem mapGet_cons {α : Type} (p : String × α) (t : List (String × α)) (k : String) :
    mapGet (p :: t) k = if p.1 == k then some p.2 else mapGet t k := by
  by_cases h : p.1 == k <;> simp [mapGet, List.find?_cons, h]

theorem mapGet_mapSet_self {α : Type} (l : List (String × α)) (k : String) (v : α) :
    mapGet (mapSet l k v) k = some v := by
  induction l with
  | nil => simp [mapGet, mapSet]
  | cons p t ih =>
    by_cases hp : p.1 = k
    · simp [mapGet, mapSet, List.any_cons, hp, List.find?]
    · simp only [mapSet, List.any_cons] at *
      by_cases ht : t.any (fun p => p.1 == k)
      · simp only [hp, ht, if_true, beq_iff_eq, or_true, List.map_cons, if_neg hp]
        simp [mapGet, List.find?, hp]
        simpa [mapSet, ht, mapGet] using ih
      · simp only [hp, ht, beq_iff_eq, if_neg, or_false, List.cons_append]
        simp [mapGet, List.find?, hp]
        simpa [mapSet, ht, mapGet] using ih

theorem mapGet_map_replace {α : Type} (l : List (String × α)) {k k2 : String} (v : α)
    (hne : k2 ≠ k) :
    mapGet (l.map (fun p => if p.1 == k then (k, v) else p)) k2 = mapGet l k2 := by
  induction l with
  | nil => simp
  | cons p t ih =>
    by_cases hp : p.1 = k
    · rw [List.map_cons, if_pos (by simp [hp]), mapGet_cons, mapGet_cons,
        if_neg (by simp [Ne.symm hne]), if_neg (by simp [hp, Ne.symm hne])]
      exact ih
    · rw [List.map_cons, if_neg (by simp [hp]), mapGet_cons, mapGet_cons]
      by_cases hp2 : p.1 == k2
      · simp [hp2]
      · simp only [hp2, if_false]
        exact ih

theorem mapGet_append_single {α : Type} (l : List (String × α)) {k k2 : String} (v : α)
    (hne : k2 ≠ k) : mapGet (l ++ [(k, v)]) k2 = mapGet l k2 := by
  have hk : (k == k2) = false := by simp [Ne.symm hne]
  induction l with
  | nil => simp [mapGet, List.find?, hk]
  | cons p t ih =>
    rw [List.cons_append, mapGet_cons, mapGet_cons]
    by_cases hp2 : p.1 == k2
    · simp [hp2]
    · simp only [hp2, if_false]
      exact ih

theorem mapGet_mapSet_ne {α : Type} (l : List (String × α)) {k k2 : String} (v : α)
    (hne : k2 ≠ k) : mapGet (mapSet l k v) k2 = mapGet l k2 := by
  unfold mapSet
  by_cases hA : l.any (fun p => p.1 == k)
  · rw [if_pos hA]
    exact mapGet_map_replace l v hne
  · rw [if_neg hA]
    exact mapGet_append_single l v hne

theorem partitionCached_eq (st : CacheState) (now : Int) (addrs : List String) :
    partitionCached st now addrs =
      (validHits st now addrs, uncachedOf st now addrs) := by
  induction addrs with
  | nil => simp [partitionCached, validHits, uncachedOf]
  | cons a t ih =>
    cases h : getCachedValid st now (jsToLower a) with
    | none =>
      simp [partitionCached, validHits, uncachedOf, h, ih, List.filterMap_cons,
        List.filter_cons]
    | some d =>
      simp [partitionCached, validHits, uncachedOf, h, ih, List.filterMap_cons,
        List.filter_cons]

theorem uncachedOf_ne_nil_input {st : CacheState} {now : Int} {input : List String}
    (h : uncachedOf st now (jsSort input) ≠ []) : ¬input.isEmpty := by
  intro he
  rw [List.isEmpty_iff] at he
  subst he
  simp [jsSort, List.insertionSort, uncachedOf] at h

theorem getBatchPhase1_direct (st : CacheState) (now : Int) (input : List String)
    (api : List String → Except Unit (List TokenMetadata))
    (hpend : freshPending st now (generateBatchKey input) = none)
    (hunc : uncachedOf st now (jsSort input) ≠ []) :
    getBatchPhase1 st now input api =
      (.inflight (generateBatchKey input) (validHits st now (jsSort input))
          (fetchBatchFromAPI api (uncachedOf st now (jsSort input))),
        jsSort input,
        { st with pendingBatchRequests :=
            (mapSet st.pendingBatchRequests (generateBatchKey input)
              ⟨uncachedOf st now (jsSort input),
               fetchBatchFromAPI api (uncachedOf st now (jsSort input)), now⟩) }) := by
  unfold getBatchPhase1
  rw [if_neg (uncachedOf_ne_nil_input hunc)]
  have hpend2 : freshPending st now (String.intercalate "," (jsSort input)) = none := hpend
  simp only [hpend2, partitionCached_eq]
  rw [if_neg (by simpa [List.isEmpty_iff] using hunc)]
  rfl

theorem getBatch_direct (st : CacheState) (now : Int) (input : List String)
    (api : List String → Except Unit (List TokenMetadata))
    (hpend : freshPending st now (generateBatchKey input) = none)
    (hunc : uncachedOf st now (jsSort input) ≠ []) :
    getBatchTokenMetadata st now input api =
      (validHits st now (jsSort input) ++
          fetchBatchFromAPI api (uncachedOf st now (jsSort input)),
        jsSort input,
        (getBatchPhase2
          { st with pendingBatchRequests :=
              (mapSet st.pendingBatchRequests (generateBatchKey input)
                ⟨uncachedOf st now (jsSort input),
                 fetchBatchFromAPI api (uncachedOf st now (jsSort input)), now⟩) }
          now (generateBatchKey input) (validHits st now (jsSort input))
          (fetchBatchFromAPI api (uncachedOf st now (jsSort input)))).2) := by
  unfold getBatchTokenMetadata
  rw [getBatchPhase1_direct st now input api hpend hunc]
  rfl

theorem getBatch_join (st : CacheState) (now : Int) (input : List String)
    (api : List String → Except Unit (List TokenMetadata)) (pb : BatchRequest)
    (hne : ¬input.isEmpty)
    (hp : freshPending st now (generateBatchKey input) = some pb) :
    getBatchTokenMetadata st now input api = (pb.promiseVal, jsSort input, st) := by
  have hp2 : freshPending st now (String.intercalate "," (jsSort input)) = some pb := hp
  unfold getBatchTokenMetadata getBatchPhase1
  rw [if_neg hne]
  simp only [hp2]

theorem getBatch_sorted_arg (st : CacheState) (now : Int) (input : List String)
    (api : List String → Except Unit (List TokenMetadata)) (hne : ¬input.isEmpty) :
    (getBatchTokenMetadata st now input api).2.1 = jsSort input := by
  unfold getBatchTokenMetadata getBatchPhase1
  rw [if_neg hne]
  cases hfp : freshPending st now (String.intercalate "," (jsSort input)) with
  | some pb => simp [hfp]
  | none =>
    simp only [hfp]
    by_cases hu : (partitionCached st now (jsSort input)).2.isEmpty <;>
      simp [hu, getBatchPhase2]

theorem charListLe_total : ∀ as bs : List Char,
    charListLe as bs = true ∨ charListLe bs as = true := by
  intro as
  induction as with
  | nil => intro bs; left; rfl
  | cons a as ih =>
    intro bs
    cases bs with
    | nil => right; rfl
    | cons b bs =>
      rcases lt_trichotomy a b with h | h | h
      · left; simp [charListLe, h]
      · subst h
        simpa [charListLe, lt_irrefl] using ih bs
      · right; simp [charListLe, h]

theorem charListLe_trans : ∀ as bs cs : List Char,
    charListLe as bs = true → charListLe bs cs = true → charListLe as cs = true := by
  intro as
  induction as with
  | nil => intro bs cs _ _; rfl
  | cons a as ih =>
    intro bs cs h1 h2
    cases bs with
    | nil => simp [charListLe] at h1
    | cons b bs =>
      cases cs with
      | nil => simp [charListLe] at h2
      | cons c cs =>
        rcases lt_trichotomy a b with hab | hab | hab
        · rcases lt_trichotomy b c with hbc | hbc | hbc
          · simp [charListLe, lt_trans hab hbc]
          · subst hbc; simp [charListLe, hab]
          · simp [charListLe, hbc, asymm hbc] at h2
        · subst hab
          rcases lt_trichotomy a c with hbc | hbc | hbc
          · simp [charListLe, hbc]
          · subst hbc
            simp only [charListLe, lt_irrefl, if_false] at h1 h2 ⊢
            exact ih bs cs h1 h2
          · simp [charListLe, hbc, asymm hbc] at h2
        · simp [charListLe, hab, asymm hab] at h1

instance : IsTotal String (fun a b => jsLe a b = true) :=
  ⟨fun a b => charListLe_total a.data b.data⟩

instance : IsTrans String (fun a b => jsLe a b = true) :=
  ⟨fun a b c => charListLe_trans a.data b.data c.data⟩

theorem jsSort_perm (l : List String) : (jsSort l).Perm l :=
  List.perm_insertionSort _ l

theorem jsSort_sorted (l : List String) :
    (jsSort l).Sorted (fun a b => jsLe a b = true) :=
  List.sorted_insertionSort _ l

theorem windowCount_append (h1 h2 : List Int) (now : Int) :
    windowCount (h1 ++ h2) now = windowCount h1 now + windowCount h2 now :=
  List.countP_append _ h1 h2

theorem windowCount_mono (h : List Int) {t now : Int} (hle : t ≤ now) :
    windowCount h now ≤ windowCount h t := by
  refine List.countP_mono_left (fun x _ hx => ?_)
  simp only [decide_eq_true_eq] at hx ⊢
  omega

theorem windowCount_cleanup (h : List Int) (now : Int) :
    windowCount (cleanupRequestHistory h now) now = windowCount h now := by
  unfold windowCount cleanupRequestHistory
  rw [List.countP_filter]
  simp only [Bool.and_self]

theorem windowCount_cleanup_len (h : List Int) (now : Int) :
    windowCount (cleanupRequestHistory h now) now =
      (cleanupRequestHistory h now).length := by
  unfold windowCount cleanupRequestHistory
  apply List.countP_eq_length.mpr
  intro a ha
  exact (List.mem_filter.mp ha).2

theorem windowCount_singleton_le (t now : Int) : windowCount [t] now ≤ 1 :=
  Nat.le_trans (List.countP_le_length _) (by simp)

theorem admitted_window_inv (hk : Bool) :
    ∀ (es : List RLEvent) (s s2 : RLState),
      admittedRun hk s es = true → runRL hk s es = some s2 →
      (∀ now : Int, (∀ x ∈ s.history, x ≤ now) →
        windowCount s.history now ≤ getMaxRequests hk) →
      (∀ now : Int, (∀ x ∈ s2.history, x ≤ now) →
        windowCount s2.history now ≤ getMaxRequests hk) := by
  intro es
  induction es with
  | nil =>
    intro s s2 _ hrun hP
    have hss : s = s2 := by
      simpa [runRL, List.foldlM] using hrun
    exact hss ▸ hP
  | cons e es ih =>
    intro s s2 hadm hrun hP
    unfold admittedRun at hadm
    rw [Bool.and_eq_true] at hadm
    obtain ⟨hc, hrest⟩ := hadm
    cases hstep : rlStep hk s e with
    | none => rw [hstep] at hrest; simp at hrest
    | some s1 =>
      rw [hstep] at hrest
      have hrun1 : runRL hk s1 es = some s2 := by
        rw [runRL, List.foldlM, hstep] at hrun
        exact hrun
      refine ih s1 s2 hrest hrun1 ?_
      cases e with
      | wake cid => simp at hc
      | settle key =>
        have h1 : s1.history = s.history := by
          simp only [rlStep] at hstep
          cases hstep
          rfl
        rw [h1]; exact hP
      | arrive cid key t =>
        rw [Bool.and_eq_true, Bool.or_eq_true] at hc
        obtain ⟨hlt, hc2⟩ := hc
        rw [decide_eq_true_eq] at hlt
        simp only [rlStep, if_neg (not_lt.mpr hlt)] at hstep
        cases hlk : mapGet s.pending key with
        | some pid =>
          rw [hlk] at hstep
          simp only [Option.some_inj] at hstep
          have h1 : s1.history = s.history := by rw [← hstep]
          rw [h1]; exact hP
        | none =>
          have hcan : canMakeRequest hk s t = true := by
            rcases hc2 with h | h
            · rw [hlk] at h; simp at h
            · exact h
          rw [hlk] at hstep
          unfold canMakeRequest at hcan
          by_cases hcd : t < s.cooldownUntil
          · rw [if_pos hcd] at hcan; simp at hcan
          · rw [if_neg hcd] at hcan
            rw [decide_eq_true_eq] at hcan
            rw [if_neg hcd] at hstep
            simp only [if_pos hcan, Option.some_inj] at hstep
            have h1 : s1.history = cleanupRequestHistory s.history t ++ [t] := by
              rw [← hstep]
            intro now hbound
            rw [h1] at hbound ⊢
            have hnow : t ≤ now := hbound t (by simp)
            calc windowCount (cleanupRequestHistory s.history t ++ [t]) now
                = windowCount (cleanupRequestHistory s.history t) now
                    + windowCount [t] now := windowCount_append _ _ _
              _ ≤ windowCount (cleanupRequestHistory s.history t) t + 1 :=
                  Nat.add_le_add (windowCount_mono _ hnow)
                    (windowCount_singleton_le t now)
              _ = (cleanupRequestHistory s.history t).length + 1 := by
                  rw [windowCount_cleanup_len]
              _ ≤ getMaxRequests hk := by omega

theorem foldl_cacheToken_get (now : Int) :
    ∀ (ts : List TokenMetadata) (st : CacheState) (k : String),
      (mapGet (ts.foldl (fun s tok => cacheToken s now tok) st).cache k
          = mapGet st.cache k ∧ ∀ t ∈ ts, jsToLower t.address ≠ k)
      ∨ ∃ t ∈ ts, mapGet (ts.foldl (fun s tok => cacheToken s now tok) st).cache k
          = some ⟨t, now, now + CACHE_DURATION⟩ := by
  intro ts
  induction ts with
  | nil =>
    intro st k
    left
    exact ⟨rfl, by simp⟩
  | cons t0 ts ih =>
    intro st k
    rw [List.foldl_cons]
    rcases ih (cacheToken st now t0) k with ⟨heq, hnone⟩ | ⟨t, ht, heq⟩
    · by_cases hk : jsToLower t0.address = k
      · right
        refine ⟨t0, by simp, ?_⟩
        rw [heq, cacheToken]
        subst hk
        exact mapGet_mapSet_self _ _ _
      · left
        constructor
        · rw [heq, cacheToken]
          exact mapGet_mapSet_ne _ _ (fun he => hk he.symm)
        · intro t ht
          rcases List.mem_cons.mp ht with h | h
          · exact h ▸ hk
          · exact hnone t h
    · right
      exact ⟨t, List.mem_cons_of_mem _ ht, heq⟩

/-! ## Claims -/

/-- Claim C8: with no credential the cap resolves to 30, with a
credential to 100, and the credentialed profile always has a strictly
larger cap and strictly shorter cooldown than the uncredentialed one. -/
theorem C8_config_profiles :
    getMaxRequests false = 30 ∧ getMaxRequests true = 100 ∧
    getMaxRequests false < getMaxRequests true ∧
    getCooldownMs true < getCooldownMs false := by
  decide

/-- Claim C3 (amended): on the direct path — no fresh pending batch under
the signature of the input, at least one uncached address — the merged
result is exactly the valid cache hits, in sorted input order, followed
verbatim by the provider response for the uncached list: one entry per
valid cache hit and one per response record, none dropped and none
duplicated beyond the input itself; in particular every valid-cached
address of the input contributes its cached record.  A caller that joins
a fresh pending batch instead receives only that stored batch value (its
own cache hits are not merged in — see the counterexample). -/
theorem C3_partition_merge :
    (∀ (st : CacheState) (now : Int) (input : List String)
      (api : List String → Except Unit (List TokenMetadata)),
      freshPending st now (generateBatchKey input) = none →
      uncachedOf st now (jsSort input) ≠ [] →
      (getBatchTokenMetadata st now input api).1 =
        validHits st now (jsSort input) ++
          fetchBatchFromAPI api (uncachedOf st now (jsSort input))) ∧
    (∀ (st : CacheState) (now : Int) (input : List String)
      (api : List String → Except Unit (List TokenMetadata)) (a : String)
      (d : TokenMetadata),
      freshPending st now (generateBatchKey input) = none →
      uncachedOf st now (jsSort input) ≠ [] →
      a ∈ input → getCachedValid st now (jsToLower a) = some d →
      d ∈ (getBatchTokenMetadata st now input api).1) ∧
    (∀ (st : CacheState) (now : Int) (input : List String)
      (api : List String → Except Unit (List TokenMetadata)) (pb : BatchRequest),
      ¬input.isEmpty →
      freshPending st now (generateBatchKey input) = some pb →
      (getBatchTokenMetadata st now input api).1 = pb.promiseVal) := by
  refine ⟨?_, ?_, ?_⟩
  · intro st now input api hpend hunc
    rw [getBatch_direct st now input api hpend hunc]
  · intro st now input api a d hpend hunc ha hd
    rw [getBatch_direct st now input api hpend hunc]
    apply List.mem_append_left
    exact List.mem_filterMap.mpr ⟨a, (jsSort_perm input).mem_iff.mpr ha, hd⟩
  · intro st now input api pb hne hp
    rw [getBatch_join st now input api pb hne hp]

/-- Claim C3 counterexample: `c3State` is the mid-flight state of a first
caller for `[x, y]` (with `x` a valid cache hit); a second caller for the
same input joins the pending batch and receives `[metaY]` only — its own
valid cache hit `metaX` is silently dropped from the result. -/
theorem C3_join_drops_cache_hit :
    getCachedValid c3State 1 "x" = some metaX ∧
    (getBatchTokenMetadata c3State 1 ["x", "y"] apiFail).1 = [metaY] ∧
    metaX ∉ (getBatchTokenMetadata c3State 1 ["x", "y"] apiFail).1 := by
  decide

/-- Claim C4 (amended): the pending-batch signature is derived from the
full input address list — sorted in place, duplicates retained — and is
computed before the cache partition; the registered `BatchRequest` stores
the uncached addresses, but sits under the full-input key. -/
theorem C4_batch_signature :
    (∀ input : List String,
      generateBatchKey input = String.intercalate "," (jsSort input)) ∧
    (∀ (st : CacheState) (now : Int) (input : List String)
      (api : List String → Except Unit (List TokenMetadata)),
      freshPending st now (generateBatchKey input) = none →
      uncachedOf st now (jsSort input) ≠ [] →
      mapGet (getBatchPhase1 st now input api).2.2.pendingBatchRequests
          (generateBatchKey input) =
        some ⟨uncachedOf st now (jsSort input),
          fetchBatchFromAPI api (uncachedOf st now (jsSort input)), now⟩) := by
  refine ⟨fun _ => rfl, ?_⟩
  intro st now input api hpend hunc
  rw [getBatchPhase1_direct st now input api hpend hunc]
  exact mapGet_mapSet_self _ _ _

/-- Claim C4 counterexample: with `x` validly cached, a call for
`[y, x]` registers its pending batch under the signature `x,y` computed
from the sorted full input — not under `y`, the signature of the sorted
deduplicated uncached list; and duplicate addresses survive into the
signature (`[y, y]` keys as `y,y`). -/
theorem C4_signature_from_full_input :
    mapGet c4State.pendingBatchRequests "x,y" = some ⟨["y"], [metaY], 0⟩ ∧
    mapGet c4State.pendingBatchRequests "y" = none ∧
    generateBatchKey ["y", "y"] = "y,y" := by
  decide

/-- Claim C5: if the provider throws for the uncached batch, the error is
caught at the fetch boundary, the batch contributes the empty list, and
`getBatchTokenMetadata` still resolves to the previously-cached valid
entries with the cache map left unchanged. -/
theorem C5_failure_resilience (st : CacheState) (now : Int)
    (input : List String)
    (api : List String → Except Unit (List TokenMetadata))
    (hpend : freshPending st now (generateBatchKey input) = none)
    (hunc : uncachedOf st now (jsSort input) ≠ [])
    (herr : api (uncachedOf st now (jsSort input)) = .error ()) :
    (getBatchTokenMetadata st now input api).1 =
      validHits st now (jsSort input) ∧
    (getBatchTokenMetadata st now input api).2.2.cache = st.cache := by
  have hfb : fetchBatchFromAPI api (uncachedOf st now (jsSort input)) = [] := by
    unfold fetchBatchFromAPI
    rw [herr]
  rw [getBatch_direct st now input api hpend hunc]
  constructor
  · rw [hfb, List.append_nil]
  · simp [getBatchPhase2, hfb]

/-- Claim C6: a record cached at time `T` gets expiry `T + TTL`; absent
an intervening overwrite, any lookup strictly before the expiry is a
cache hit returning the record with no state change, and any lookup at
or after the expiry treats the entry as absent. -/
theorem C6_cache_ttl (st : CacheState) (tok : TokenMetadata) (T Tq : Int)
    (api : List String → Except Unit (List TokenMetadata)) :
    mapGet (cacheToken st T tok).cache (jsToLower tok.address) =
      some ⟨tok, T, T + CACHE_DURATION⟩ ∧
    (Tq < T + CACHE_DURATION →
      getTokenMetadata (cacheToken st T tok) Tq tok.address api =
        (some tok, cacheToken st T tok)) ∧
    (T + CACHE_DURATION ≤ Tq →
      getCachedValid (cacheToken st T tok) Tq (jsToLower tok.address) = none) := by
  have hget : mapGet (cacheToken st T tok).cache (jsToLower tok.address) =
      some ⟨tok, T, T + CACHE_DURATION⟩ := by
    unfold cacheToken
    exact mapGet_mapSet_self _ _ _
  refine ⟨hget, ?_, ?_⟩
  · intro hlt
    have hv : getCachedValid (cacheToken st T tok) Tq (jsToLower tok.address) =
        some tok := by
      unfold getCachedValid
      rw [hget]
      simp [isCacheValid, hlt]
    unfold getTokenMetadata
    rw [hv]
  · intro hge
    unfold getCachedValid
    rw [hget]
    simp only [isCacheValid]
    rw [if_neg (by simp; omega)]

/-- Claim C7 (amended): on a cache miss `getTokenMetadata` delegates to
the batch form on the one-element list and returns null exactly when the
batch result is empty; when the result is non-empty it returns its first
element by position (not matched by address field — see the
counterexample), with the state of the batch call. -/
theorem C7_single_positional (st : CacheState) (now : Int) (address : String)
    (api : List String → Except Unit (List TokenMetadata))
    (hmiss : getCachedValid st now (jsToLower address) = none) :
    ((getTokenMetadata st now address api).1 = none ↔
      (getBatchTokenMetadata st now [address] api).1 = []) ∧
    (∀ (r : TokenMetadata) (rest : List TokenMetadata),
      (getBatchTokenMetadata st now [address] api).1 = r :: rest →
      (getTokenMetadata st now address api).1 = some r) ∧
    (getTokenMetadata st now address api).2 =
      (getBatchTokenMetadata st now [address] api).2.2 := by
  unfold getTokenMetadata
  rw [hmiss]
  cases hr : (getBatchTokenMetadata st now [address] api).1 with
  | nil => simp [hr]
  | cons r rest =>
    simp only [hr]
    refine ⟨?_, ?_, ?_⟩
    · simp
    · intro r2 rest2 h2
      injection h2 with h3 _
      rw [h3]
    · trivial

/-- Claim C7 counterexample: with an empty cache and a provider that
answers the request for `[x]` with the single record `metaZ` (address
`z`), `getTokenMetadata "x"` returns `metaZ` — a record whose address
field does not match — even though no record for `x` is present in the
batch result, where the claim requires null. -/
theorem C7_positional_mismatch :
    (getTokenMetadata cacheInit 0 "x" apiZAny).1 = some metaZ ∧
    metaZ.address ≠ "x" ∧
    (∀ m ∈ (getBatchTokenMetadata cacheInit 0 ["x"] apiZAny).1,
      m.address ≠ "x") := by
  decide

/-- Claim C9: for every non-empty input, `getBatchTokenMetadata` leaves
the caller-supplied address array permuted into sorted order (the
in-place `sort()` inside the batch-key computation): afterwards the array
is the sorted permutation of the original, not the original. -/
theorem C9_sort_in_place (st : CacheState) (now : Int) (input : List String)
    (api : List String → Except Unit (List TokenMetadata))
    (hne : ¬input.isEmpty) :
    (getBatchTokenMetadata st now input api).2.1 = jsSort input ∧
    (jsSort input).Perm input ∧
    (jsSort input).Sorted (fun a b => jsLe a b = true) :=
  ⟨getBatch_sorted_arg st now input api hne, jsSort_perm input,
    jsSort_sorted input⟩

/-- Claim C10: `searchTokens` never rejects: a throwing request resolves
to the empty list with the cache untouched; a successful request resolves
to the provider array verbatim after writing every returned record into
the cache with a fresh TTL (`now + CACHE_DURATION`, last write winning
for a duplicated address). -/
theorem C10_search_resilient (st : CacheState) (now : Int) (q : String)
    (lim : Nat) (api : String → Nat → Except Unit (List TokenMetadata)) :
    (∀ e : Unit, api q lim = .error e →
      searchTokens st now q lim api = ([], st)) ∧
    (∀ ts : List TokenMetadata, api q lim = .ok ts →
      (searchTokens st now q lim api).1 = ts ∧
      ∀ tok ∈ ts, ∃ e : CacheEntry,
        mapGet (searchTokens st now q lim api).2.cache (jsToLower tok.address) =
          some e ∧
        e.timestamp = now ∧ e.expiresAt = now + CACHE_DURATION ∧
        e.data ∈ ts) := by
  constructor
  · intro e he
    unfold searchTokens
    rw [he]
  · intro ts hts
    unfold searchTokens
    rw [hts]
    refine ⟨rfl, ?_⟩
    intro tok htok
    rcases foldl_cacheToken_get now ts st (jsToLower tok.address) with
      ⟨_, hnone⟩ | ⟨t, ht, heq⟩
    · exact absurd rfl (hnone tok htok)
    · exact ⟨⟨t, now, now + CACHE_DURATION⟩, heq, rfl, rfl, ht⟩

theorem windowCount_cleanup_other (h : List Int) {t now : Int} (hle : t ≤ now) :
    windowCount (cleanupRequestHistory h t) now = windowCount h now := by
  unfold windowCount cleanupRequestHistory
  rw [List.countP_filter]
  apply Nat.le_antisymm
  · refine List.countP_mono_left (fun x _ hx => ?_)
    rw [Bool.and_eq_true] at hx
    exact hx.1
  · refine List.countP_mono_left (fun x _ hx => ?_)
    rw [Bool.and_eq_true]
    refine ⟨hx, ?_⟩
    rw [decide_eq_true_eq] at hx ⊢
    omega

/-- Claim C1 (amended): over every event sequence in which each arriving
request is admitted at its arrival (or deduplicated against a pending
request), the number of recorded timestamps newer than `now - windowMs`
never exceeds `maxRequests`, for any `now` not earlier than the recorded
stamps.  A caller found not admissible is suspended until exactly
`t + cooldownMs` — no network call, no timestamp at arrival — and on
waking records a timestamp and proceeds without the window being
re-checked; because of that unconditional record, the bound fails for
unrestricted sequences (see the counterexample). -/
theorem C1_window_invariant :
    (∀ (hk : Bool) (es : List RLEvent) (s2 : RLState),
      admittedRun hk rlInit es = true → runRL hk rlInit es = some s2 →
      ∀ now : Int, (∀ x ∈ s2.history, x ≤ now) →
        windowCount s2.history now ≤ getMaxRequests hk) ∧
    (∀ (hk : Bool) (s : RLState) (cid : Nat) (key : String) (t : Int),
      s.lastTime ≤ t → mapGet s.pending key = none →
      canMakeRequest hk s t = false →
      ∃ s1, rlStep hk s (.arrive cid key t) = some s1 ∧
        s1.waiting = s.waiting ++ [(cid, key, t + getCooldownMs hk)] ∧
        s1.netCalls = s.netCalls ∧
        ∀ now : Int, t ≤ now →
          windowCount s1.history now = windowCount s.history now) ∧
    (∀ (hk : Bool) (s : RLState) (cid c2 : Nat) (key : String) (u : Int)
      (s1 : RLState),
      s.waiting.find? (fun w => w.1 == cid) = some (c2, key, u) →
      rlStep hk s (.wake cid) = some s1 →
      s1.history = s.history ++ [u] ∧ s1.netCalls = s.netCalls ++ [key]) := by
  refine ⟨?_, ?_, ?_⟩
  · intro hk es s2 hadm hrun
    refine admitted_window_inv hk es rlInit s2 hadm hrun ?_
    intro now _
    simp [rlInit, windowCount, getMaxRequests]
  · intro hk s cid key t hle hpend hcan
    simp only [rlStep]
    rw [if_neg (not_lt.mpr hle), hpend]
    unfold canMakeRequest at hcan
    by_cases hcd : t < s.cooldownUntil
    · rw [if_pos hcd]
      exact ⟨_, rfl, rfl, rfl, fun now _ => rfl⟩
    · rw [if_neg hcd] at hcan
      rw [decide_eq_false_iff_not] at hcan
      rw [if_neg hcd]
      simp only [if_neg hcan]
      exact ⟨_, rfl, rfl, rfl, fun now hnow => windowCount_cleanup_other s.history hnow⟩
  · intro hk s cid c2 key u s1 hfind hstep
    simp only [rlStep, hfind] at hstep
    by_cases hu : u < s.lastTime
    · rw [if_pos hu] at hstep
      cases hstep
    · rw [if_neg hu] at hstep
      injection hstep with h1
      rw [← h1]
      exact ⟨rfl, rfl⟩

/-- Claim C1 counterexample: on the free tier (cap 30) one admitted
request at time 0 arms the cooldown; thirty more (distinct signatures)
arrive at time 1, each fails the admission check, waits exactly 2000 ms,
and records unconditionally on waking at time 2001: the window then holds
31 recorded timestamps, exceeding `maxRequests = 30`. -/
theorem C1_backoff_overflows_window :
    (match runRL false rlInit c1trace with
     | some s => windowCount s.history 2001
     | none => 0) = 31 ∧
    (match runRL false rlInit c1trace with
     | some s => s.history.all (fun x => decide (x ≤ 2001))
     | none => false) = true ∧
    getMaxRequests false = 30 := by
  decide

/-- Claim C2 (amended): a call whose signature has a registered
PendingRequest returns that shared promise with no new network call,
regardless of window or cooldown state.  When a first call with a fresh
signature is admitted at arrival, it registers its pending entry in the
same synchronous stretch, so any identical call arriving before the
settle shares it: exactly one network call, both callers bound to the
same promise identifier.  When the first call is instead suspended in the
rate-limit backoff, registration only happens after the wait and a
concurrent identical call issues its own network call (see the
counterexample). -/
theorem C2_dedup_shared_promise :
    (∀ (hk : Bool) (s : RLState) (cid : Nat) (key : String) (t : Int)
      (pid : Nat),
      s.lastTime ≤ t → mapGet s.pending key = some pid →
      rlStep hk s (.arrive cid key t) =
        some { s with lastTime := t, results := s.results ++ [(cid, pid)] }) ∧
    (∀ (hk : Bool) (s : RLState) (a b : Nat) (key : String) (ta tb : Int)
      (s1 : RLState),
      mapGet s.pending key = none → canMakeRequest hk s ta = true →
      rlStep hk s (.arrive a key ta) = some s1 → ta ≤ tb →
      s1.netCalls = s.netCalls ++ [key] ∧
      s1.results = s.results ++ [(a, s.netCalls.length)] ∧
      rlStep hk s1 (.arrive b key tb) =
        some { s1 with lastTime := tb,
                       results := s1.results ++ [(b, s.netCalls.length)] }) := by
  have part1 : ∀ (hk : Bool) (s : RLState) (cid : Nat) (key : String) (t : Int)
      (pid : Nat),
      s.lastTime ≤ t → mapGet s.pending key = some pid →
      rlStep hk s (.arrive cid key t) =
        some { s with lastTime := t, results := s.results ++ [(cid, pid)] } := by
    intro hk s cid key t pid hle hpid
    simp only [rlStep]
    rw [if_neg (not_lt.mpr hle), hpid]
  refine ⟨part1, ?_⟩
  intro hk s a b key ta tb s1 hnone hcan hstep htb
  simp only [rlStep] at hstep
  by_cases hta : ta < s.lastTime
  · rw [if_pos hta] at hstep
    cases hstep
  · rw [if_neg hta, hnone] at hstep
    unfold canMakeRequest at hcan
    by_cases hcd : ta < s.cooldownUntil
    · rw [if_pos hcd] at hcan
      cases hcan
    · rw [if_neg hcd] at hcan
      rw [decide_eq_true_eq] at hcan
      rw [if_neg hcd] at hstep
      simp only [if_pos hcan] at hstep
      injection hstep with h1
      subst h1
      refine ⟨rfl, rfl, ?_⟩
      exact part1 hk _ b key tb s.netCalls.length htb (mapGet_mapSet_self _ _ _)

/-- Claim C2 counterexample: an unrelated admitted request at time 0 arms
the cooldown; two callers with the identical signature `k` arrive at time
1, both miss the pending map (the first has not registered yet — it is
suspended in the backoff before registration), and on waking each issues
its own network call: two underlying network calls for one signature
before any settle, with distinct promise identifiers for the two
callers. -/
theorem C2_backoff_defeats_dedup :
    (match runRL false rlInit c2trace with
     | some s => s.netCalls
     | none => []) = ["a", "k", "k"] ∧
    (match runRL false rlInit c2trace with
     | some s => s.results
     | none => []) = [(0, 0), (1, 1), (2, 2)] := by
  decide

/-! ## Witnesses -/

theorem C1_window_invariant_witness :
    windowCount c1wState.history 2000 ≤ getMaxRequests false ∧
    (∃ s1, rlStep false c1wState (.arrive 9 "c" 2001) = some s1 ∧
      s1.waiting = c1wState.waiting ++ [(9, "c", 2001 + getCooldownMs false)] ∧
      s1.netCalls = c1wState.netCalls ∧
      ∀ now : Int, (2001 : Int) ≤ now →
        windowCount s1.history now = windowCount c1wState.history now) ∧
    (wakeState1.history = wakeState0.history ++ [100] ∧
      wakeState1.netCalls = wakeState0.netCalls ++ ["w"]) :=
  ⟨C1_window_invariant.1 false c1wTrace c1wState (by decide) (by decide) 2000
      (by decide),
    C1_window_invariant.2.1 false c1wState 9 "c" 2001 (by decide) (by decide)
      (by decide),
    C1_window_invariant.2.2 false wakeState0 7 7 "w" 100 wakeState1 (by decide)
      (by decide)⟩

theorem C2_dedup_shared_promise_witness :
    rlStep false sPend (.arrive 3 "k" 1) =
      some { sPend with lastTime := 1, results := sPend.results ++ [(3, 5)] } ∧
    (s1c.netCalls = rlInit.netCalls ++ ["k"] ∧
      s1c.results = rlInit.results ++ [(1, rlInit.netCalls.length)] ∧
      rlStep false s1c (.arrive 2 "k" 0) =
        some { s1c with lastTime := 0,
                        results := s1c.results ++ [(2, rlInit.netCalls.length)] }) :=
  ⟨C2_dedup_shared_promise.1 false sPend 3 "k" 1 5 (by decide) (by decide),
    C2_dedup_shared_promise.2 false rlInit 1 2 "k" 0 0 s1c (by decide)
      (by decide) (by decide) (by decide)⟩

theorem C3_partition_merge_witness :
    (getBatchTokenMetadata stX 1 ["x", "y"] apiYOnly).1 =
      validHits stX 1 (jsSort ["x", "y"]) ++
        fetchBatchFromAPI apiYOnly (uncachedOf stX 1 (jsSort ["x", "y"])) ∧
    metaX ∈ (getBatchTokenMetadata stX 1 ["x", "y"] apiYOnly).1 ∧
    (getBatchTokenMetadata c3State 1 ["x", "y"] apiFail).1 =
      (⟨["y"], [metaY], 0⟩ : BatchRequest).promiseVal :=
  ⟨C3_partition_merge.1 stX 1 ["x", "y"] apiYOnly (by decide) (by decide),
    C3_partition_merge.2.1 stX 1 ["x", "y"] apiYOnly "x" metaX (by decide)
      (by decide) (by decide) (by decide),
    C3_partition_merge.2.2 c3State 1 ["x", "y"] apiFail ⟨["y"], [metaY], 0⟩
      (by decide) (by decide)⟩

theorem C4_batch_signature_witness :
    generateBatchKey ["y", "x"] = String.intercalate "," (jsSort ["y", "x"]) ∧
    mapGet (getBatchPhase1 stX 0 ["y", "x"] apiYOnly).2.2.pendingBatchRequests
        (generateBatchKey ["y", "x"]) =
      some ⟨uncachedOf stX 0 (jsSort ["y", "x"]),
        fetchBatchFromAPI apiYOnly (uncachedOf stX 0 (jsSort ["y", "x"])), 0⟩ :=
  ⟨C4_batch_signature.1 ["y", "x"],
    C4_batch_signature.2 stX 0 ["y", "x"] apiYOnly (by decide) (by decide)⟩

theorem C5_failure_resilience_witness :
    (getBatchTokenMetadata stX 1 ["x", "y"] apiFail).1 =
      validHits stX 1 (jsSort ["x", "y"]) ∧
    (getBatchTokenMetadata stX 1 ["x", "y"] apiFail).2.2.cache = stX.cache :=
  C5_failure_resilience stX 1 ["x", "y"] apiFail (by decide) (by decide) rfl

theorem C6_cache_ttl_witness :
    mapGet (cacheToken cacheInit 0 metaX).cache (jsToLower metaX.address) =
      some ⟨metaX, 0, 0 + CACHE_DURATION⟩ ∧
    getTokenMetadata (cacheToken cacheInit 0 metaX) 1 metaX.address apiFail =
      (some metaX, cacheToken cacheInit 0 metaX) ∧
    getCachedValid (cacheToken cacheInit 0 metaX) (0 + CACHE_DURATION)
      (jsToLower metaX.address) = none :=
  ⟨(C6_cache_ttl cacheInit metaX 0 1 apiFail).1,
    (C6_cache_ttl cacheInit metaX 0 1 apiFail).2.1 (by decide),
    (C6_cache_ttl cacheInit metaX 0 (0 + CACHE_DURATION) apiFail).2.2
      (by decide)⟩

theorem C7_single_positional_witness :
    ((getTokenMetadata cacheInit 0 "x" apiZAny).1 = none ↔
      (getBatchTokenMetadata cacheInit 0 ["x"] apiZAny).1 = []) ∧
    (getTokenMetadata cacheInit 0 "x" apiZAny).1 = some metaZ :=
  ⟨(C7_single_positional cacheInit 0 "x" apiZAny (by decide)).1,
    (C7_single_positional cacheInit 0 "x" apiZAny (by decide)).2.1 metaZ []
      (by decide)⟩

theorem C9_sort_in_place_witness :
    (getBatchTokenMetadata cacheInit 0 ["y", "x"] apiFail).2.1 =
      jsSort ["y", "x"] ∧
    jsSort ["y", "x"] = ["x", "y"] :=
  ⟨(C9_sort_in_place cacheInit 0 ["y", "x"] apiFail (by decide)).1, by decide⟩

theorem C10_search_resilient_witness :
    searchTokens cacheInit 5 "q" 20 sApiErr = ([], cacheInit) ∧
    (searchTokens cacheInit 5 "q" 20 sApiOk).1 = [metaX, metaZ] ∧
    ∃ e : CacheEntry,
      mapGet (searchTokens cacheInit 5 "q" 20 sApiOk).2.cache
          (jsToLower metaX.address) = some e ∧
      e.timestamp = 5 ∧ e.expiresAt = 5 + CACHE_DURATION ∧
      e.data ∈ [metaX, metaZ] :=
  ⟨(C10_search_resilient cacheInit 5 "q" 20 sApiErr).1 () rfl,
    ((C10_search_resilient cacheInit 5 "q" 20 sApiOk).2 [metaX, metaZ] rfl).1,
    ((C10_search_resilient cacheInit 5 "q" 20 sApiOk).2 [metaX, metaZ] rfl).2
      metaX (by decide)⟩

end OSMO
